import Mathlib

/-!
# Vec4 arithmetic library (`src/vec.c`, `src/vec.h`, `src/utils.h`)

Shallow embedding of the vector primitives of the raytracer fragment and of
the `min` / `max` / `clamp` macros of `utils.h`.

The C scalar type `f32` is abstracted by a type parameter `α`; most
theorems read it as an exact number type (a linear ordered field, or `ℝ`
where a square root is involved), so rounding and overflow are outside the
model.  Theorems stated for an arbitrary `α` and an arbitrary `sqrtf` assume
nothing about the arithmetic.  The one operation of the library that is undefined on exact numbers,
the division inside `v4_norml`, is modelled by `fdiv`, which reports a
division by zero the way IEEE 754 arithmetic does (`0/0` is NaN, `a/0` with
`a ≠ 0` is an infinity).  `sqrtf` comes from the C library, not from this
repository, and is a parameter of the functions that call it.
-/

namespace Raytracer

/-- The struct `vec4` of `vec.h`: four scalar fields `x, y, z, w`. -/
structure vec4 (α : Type) where
  x : α
  y : α
  z : α
  w : α
deriving DecidableEq, Repr

/-- Result of a C division `a / b` on `f32` operands holding exact numbers:
a finite quotient, an infinity (nonzero dividend, zero divisor; the sign is
not tracked) or NaN (`0 / 0`). -/
inductive fquot (α : Type) where
  | fin (q : α) : fquot α
  | inf : fquot α
  | nan : fquot α
deriving DecidableEq, Repr

/-- The C expression `a / b` on `f32` operands. -/
def fdiv {α : Type} [Div α] [Zero α] [DecidableEq α] (a b : α) : fquot α :=
  if b = 0 then (if a = 0 then fquot.nan else fquot.inf) else fquot.fin (a / b)

/-- `vec4 v4_new(f32 x, f32 y, f32 z, f32 w)`: field-by-field construction. -/
def v4_new {α : Type} (x y z w : α) : vec4 α :=
  { x := x, y := y, z := z, w := w }

/-- `vec4 v4_add(vec4 t1, vec4 t2)`. The `z` field is written `t2.z + t1.z`
in the source. -/
def v4_add {α : Type} [Add α] (t1 t2 : vec4 α) : vec4 α :=
  v4_new (t1.x + t2.x) (t1.y + t2.y) (t2.z + t1.z) (t1.w + t2.w)

/-- `vec4 v4_sub(vec4 t1, vec4 t2)`, as written in the source: the first three
arguments are the sums of `v4_add`, the fourth is the literal `0`. -/
def v4_sub {α : Type} [Add α] [Zero α] (t1 t2 : vec4 α) : vec4 α :=
  v4_new (t1.x + t2.x) (t1.y + t2.y) (t2.z + t1.z) 0

/-- `int v4_equals(vec4 t1, vec4 t2)`: the C `&&` chain yields the `int` 1
or 0. -/
def v4_equals {α : Type} [DecidableEq α] (t1 t2 : vec4 α) : Int :=
  if t1.x = t2.x ∧ t1.y = t2.y ∧ t1.z = t2.z then 1 else 0

/-- `f32 v4_dot(vec4 u, vec4 v)`. -/
def v4_dot {α : Type} [Add α] [Mul α] (u v : vec4 α) : α :=
  u.x * v.x + u.y * v.y + u.z * v.z + u.w * v.w

/-- `vec4 v4_cross(vec4 u, vec4 v)`. -/
def v4_cross {α : Type} [Sub α] [Mul α] [Zero α] (u v : vec4 α) : vec4 α :=
  v4_new (u.y * v.z - u.z * v.y) (u.z * v.x - u.x * v.z) (u.x * v.y - u.y * v.x) 0

/-- `vec4 v4_scalar_mut(vec4 v, f32 t)`. -/
def v4_scalar_mut {α : Type} [Mul α] (v : vec4 α) (t : α) : vec4 α :=
  v4_new (v.x * t) (v.y * t) (v.z * t) (v.w * t)

/-- `f32 v4_mag(vec4 v)`: `sqrtf(v4_dot(v, v))`, with the C library's `sqrtf`
as a parameter. -/
def v4_mag {α : Type} [Add α] [Mul α] (sqrtf : α → α) (v : vec4 α) : α :=
  sqrtf (v4_dot v v)

/-- `vec4 v4_norml(vec4 v)`: every field is divided by `mag`, with no test on
`mag`; the four divisions are C divisions (`fdiv`). -/
def v4_norml {α : Type} [Add α] [Mul α] [Div α] [Zero α] [DecidableEq α]
    (sqrtf : α → α) (v : vec4 α) : vec4 (fquot α) :=
  let mag := v4_mag sqrtf v
  v4_new (fdiv v.x mag) (fdiv v.y mag) (fdiv v.z mag) (fdiv v.w mag)

/-- The macro `min(_a, _b)` of `utils.h`: both arguments are evaluated once,
the result is `__a < __b ? __a : __b`. -/
def min {α : Type} [LinearOrder α] (a b : α) : α :=
  if a < b then a else b

/-- The macro `max(_a, _b)` of `utils.h`: `__a > __b ? __a : __b`. -/
def max {α : Type} [LinearOrder α] (a b : α) : α :=
  if a > b then a else b

/-- The macro `clamp(_x, _mi, _ma)` of `utils.h`: `min(max(_x, _mi), _ma)`. -/
def clamp {α : Type} [LinearOrder α] (x mi ma : α) : α :=
  min (max x mi) ma

/-! ## Helper lemmas -/

theorem v4_dot_self_eq (v : vec4 ℝ) :
    v4_dot v v = v.x ^ 2 + v.y ^ 2 + v.z ^ 2 + v.w ^ 2 := by
  unfold v4_dot
  ring

theorem v4_dot_self_nonneg (v : vec4 ℝ) : 0 ≤ v4_dot v v := by
  rw [v4_dot_self_eq]
  positivity

theorem v4_dot_self_eq_zero_iff (v : vec4 ℝ) :
    v4_dot v v = 0 ↔ v.x = 0 ∧ v.y = 0 ∧ v.z = 0 ∧ v.w = 0 := by
  rw [v4_dot_self_eq]
  constructor
  · intro h
    have hx := sq_nonneg v.x
    have hy := sq_nonneg v.y
    have hz := sq_nonneg v.z
    have hw := sq_nonneg v.w
    refine ⟨?_, ?_, ?_, ?_⟩ <;> apply pow_eq_zero_iff (two_ne_zero) |>.mp <;> linarith
  · rintro ⟨hx, hy, hz, hw⟩
    simp [hx, hy, hz, hw]

theorem v4_mag_eq_zero_iff (v : vec4 ℝ) :
    v4_mag Real.sqrt v = 0 ↔ v.x = 0 ∧ v.y = 0 ∧ v.z = 0 ∧ v.w = 0 := by
  unfold v4_mag
  rw [Real.sqrt_eq_zero (v4_dot_self_nonneg v)]
  exact v4_dot_self_eq_zero_iff v

/-! ## Claims -/

/-- C1: `v4_sub` evaluated at `a = (5,7,9,1)`, `b = (1,2,3,1)`: the source
returns the sums `(6,9,12,0)`, not the component-wise difference
`(4,5,6,0)`. -/
theorem C1_v4_sub_returns_sums :
    v4_sub (v4_new (5 : ℚ) 7 9 1) (v4_new 1 2 3 1) = v4_new 6 9 12 0 ∧
    v4_sub (v4_new (5 : ℚ) 7 9 1) (v4_new 1 2 3 1)
      ≠ v4_new (5 - 1) (7 - 2) (9 - 3) (1 - 1) := by
  constructor
  · norm_num [v4_sub, v4_new]
  · norm_num [v4_sub, v4_new]

/-- C2 (counterexample): on the zero vector the magnitude is 0 and `v4_norml`
divides by it: each of the four fields of the result is the NaN of `0 / 0`,
none of them is the finite number 0, so the result is not the zero vector. -/
theorem C2_v4_norml_zero_vector_nan :
    v4_mag Real.sqrt (v4_new (0 : ℝ) 0 0 0) = 0 ∧
    (v4_norml Real.sqrt (v4_new (0 : ℝ) 0 0 0)).x = fquot.nan ∧
    (v4_norml Real.sqrt (v4_new (0 : ℝ) 0 0 0)).y = fquot.nan ∧
    (v4_norml Real.sqrt (v4_new (0 : ℝ) 0 0 0)).z = fquot.nan ∧
    (v4_norml Real.sqrt (v4_new (0 : ℝ) 0 0 0)).w = fquot.nan ∧
    (v4_norml Real.sqrt (v4_new (0 : ℝ) 0 0 0)).x ≠ fquot.fin 0 ∧
    v4_norml Real.sqrt (v4_new (0 : ℝ) 0 0 0)
      ≠ { x := fquot.fin 0, y := fquot.fin 0, z := fquot.fin 0, w := fquot.fin 0 } := by
  have hm : v4_mag Real.sqrt (v4_new (0 : ℝ) 0 0 0) = 0 := by
    simp [v4_mag, v4_dot, v4_new]
  refine ⟨hm, ?_, ?_, ?_, ?_, ?_, ?_⟩ <;>
    simp [v4_norml, v4_mag, v4_dot, fdiv, v4_new]

/-- C2 (amended): `v4_norml` has no zero-magnitude case. For any scalar
arithmetic and any `sqrtf`, whenever the computed magnitude of `v` is 0 the
four divisions by it are still performed: each field of the result is NaN
where the field of `v` is 0 and an infinity where it is not, and no field is
a finite number (so the zero vector is not returned). -/
theorem C2_v4_norml_zero_mag_divides_by_zero {α : Type} [Add α] [Mul α] [Div α] [Zero α]
    [DecidableEq α] (sqrtf : α → α) (v : vec4 α) (h : v4_mag sqrtf v = 0) :
    (v4_norml sqrtf v).x = (if v.x = 0 then fquot.nan else fquot.inf) ∧
    (v4_norml sqrtf v).y = (if v.y = 0 then fquot.nan else fquot.inf) ∧
    (v4_norml sqrtf v).z = (if v.z = 0 then fquot.nan else fquot.inf) ∧
    (v4_norml sqrtf v).w = (if v.w = 0 then fquot.nan else fquot.inf) ∧
    (∀ q : α, (v4_norml sqrtf v).x ≠ fquot.fin q ∧ (v4_norml sqrtf v).y ≠ fquot.fin q ∧
      (v4_norml sqrtf v).z ≠ fquot.fin q ∧ (v4_norml sqrtf v).w ≠ fquot.fin q) := by
  have hx : (v4_norml sqrtf v).x = (if v.x = 0 then fquot.nan else fquot.inf) := by
    simp [v4_norml, v4_new, fdiv, h]
  have hy : (v4_norml sqrtf v).y = (if v.y = 0 then fquot.nan else fquot.inf) := by
    simp [v4_norml, v4_new, fdiv, h]
  have hz : (v4_norml sqrtf v).z = (if v.z = 0 then fquot.nan else fquot.inf) := by
    simp [v4_norml, v4_new, fdiv, h]
  have hw : (v4_norml sqrtf v).w = (if v.w = 0 then fquot.nan else fquot.inf) := by
    simp [v4_norml, v4_new, fdiv, h]
  refine ⟨hx, hy, hz, hw, fun q => ⟨?_, ?_, ?_, ?_⟩⟩
  · rw [hx]
    split_ifs <;> simp
  · rw [hy]
    split_ifs <;> simp
  · rw [hz]
    split_ifs <;> simp
  · rw [hw]
    split_ifs <;> simp

/-- Witness for C2 (amended), at two inputs. Over the reals with the real
square root, the zero vector has magnitude 0 and all four fields are NaN.
Over the rationals with a `sqrtf` that returns 0 below `2^-149` (the smallest
positive `f32`), the vector `(2^-100, 0, 0, 0)` has computed magnitude 0 and
the result is `(inf, NaN, NaN, NaN)`. -/
theorem C2_v4_norml_zero_mag_divides_by_zero_witness :
    (v4_mag Real.sqrt (v4_new (0 : ℝ) 0 0 0) = 0 ∧
      (v4_norml Real.sqrt (v4_new (0 : ℝ) 0 0 0)).x = fquot.nan ∧
      (v4_norml Real.sqrt (v4_new (0 : ℝ) 0 0 0)).w = fquot.nan) ∧
    (v4_mag (fun d : ℚ => if d < 1 / 2 ^ 149 then 0 else d) (v4_new (1 / 2 ^ 100) 0 0 0) = 0 ∧
      (v4_norml (fun d : ℚ => if d < 1 / 2 ^ 149 then 0 else d)
        (v4_new (1 / 2 ^ 100) 0 0 0)).x = fquot.inf ∧
      (v4_norml (fun d : ℚ => if d < 1 / 2 ^ 149 then 0 else d)
        (v4_new (1 / 2 ^ 100) 0 0 0)).y = fquot.nan) :=
  have h0 : v4_mag Real.sqrt (v4_new (0 : ℝ) 0 0 0) = 0 := by
    simp [v4_mag, v4_dot, v4_new]
  have h1 : v4_mag (fun d : ℚ => if d < 1 / 2 ^ 149 then 0 else d)
      (v4_new (1 / 2 ^ 100) 0 0 0) = 0 := by
    norm_num [v4_mag, v4_dot, v4_new]
  ⟨⟨h0,
    by simpa [v4_new] using (C2_v4_norml_zero_mag_divides_by_zero Real.sqrt _ h0).1,
    by simpa [v4_new] using (C2_v4_norml_zero_mag_divides_by_zero Real.sqrt _ h0).2.2.2.1⟩,
   ⟨h1,
    by simpa [v4_new] using (C2_v4_norml_zero_mag_divides_by_zero _ _ h1).1,
    by simpa [v4_new] using (C2_v4_norml_zero_mag_divides_by_zero _ _ h1).2.1⟩⟩

/-- C3: `v4_add` is the component-wise sum: each of the four fields of the
result is the sum of the corresponding fields of the arguments (the source
writes the `z` sum with its operands swapped). -/
theorem C3_v4_add_componentwise {α : Type} [AddCommMagma α] (a b : vec4 α) :
    (v4_add a b).x = a.x + b.x ∧
    (v4_add a b).y = a.y + b.y ∧
    (v4_add a b).z = a.z + b.z ∧
    (v4_add a b).w = a.w + b.w :=
  ⟨rfl, rfl, add_comm b.z a.z, rfl⟩

/-- C4: `v4_equals` is non-zero exactly when the `x`, `y` and `z` fields agree;
replacing the `w` fields by any values leaves the result unchanged;
`equals((1,2,3,99),(1,2,3,-5))` is true and `equals((1,2,3,0),(1,2,4,0))` is
false. -/
theorem C4_v4_equals_xyz_only {α : Type} [DecidableEq α] (a b : vec4 α) :
    (v4_equals a b ≠ 0 ↔ a.x = b.x ∧ a.y = b.y ∧ a.z = b.z) ∧
    (∀ w1 w2 : α,
      v4_equals (v4_new a.x a.y a.z w1) (v4_new b.x b.y b.z w2) = v4_equals a b) ∧
    v4_equals (v4_new (1 : ℝ) 2 3 99) (v4_new 1 2 3 (-5)) = 1 ∧
    v4_equals (v4_new (1 : ℝ) 2 3 0) (v4_new 1 2 4 0) = 0 := by
  refine ⟨?_, ?_, ?_, ?_⟩
  · unfold v4_equals
    split_ifs with h
    · simp [h]
    · simp [h]
  · intro w1 w2
    simp [v4_equals, v4_new]
  · simp [v4_equals, v4_new]
  · norm_num [v4_equals, v4_new]

/-- C5: `v4_cross` is the 3D cross product of the `(x,y,z)` parts, field by
field, with the fourth field 0, whatever the `w` fields of the arguments
are. -/
theorem C5_v4_cross_formula {α : Type} [Sub α] [Mul α] [Zero α] (u v : vec4 α) :
    (v4_cross u v).x = u.y * v.z - u.z * v.y ∧
    (v4_cross u v).y = u.z * v.x - u.x * v.z ∧
    (v4_cross u v).z = u.x * v.y - u.y * v.x ∧
    (v4_cross u v).w = 0 ∧
    (∀ w1 w2 : α,
      v4_cross { u with w := w1 } { v with w := w2 } = v4_cross u v) :=
  ⟨rfl, rfl, rfl, rfl, fun _ _ => rfl⟩

/-- C6: `v4_dot` is the full four-term dot product, the `w` term included. -/
theorem C6_v4_dot_formula {α : Type} [Add α] [Mul α] (u v : vec4 α) :
    v4_dot u v = u.x * v.x + u.y * v.y + u.z * v.z + u.w * v.w :=
  rfl

/-- C7: `v4_scalar_mut` multiplies each of the four fields by `t`, `w`
included, and `scale((1,2,3,4), 2)` has the fields `2, 4, 6, 8`. -/
theorem C7_v4_scalar_mut_formula {α : Type} [Mul α] (v : vec4 α) (t : α) :
    ((v4_scalar_mut v t).x = v.x * t ∧
      (v4_scalar_mut v t).y = v.y * t ∧
      (v4_scalar_mut v t).z = v.z * t ∧
      (v4_scalar_mut v t).w = v.w * t) ∧
    ((v4_scalar_mut (v4_new (1 : ℝ) 2 3 4) 2).x = 2 ∧
      (v4_scalar_mut (v4_new (1 : ℝ) 2 3 4) 2).y = 4 ∧
      (v4_scalar_mut (v4_new (1 : ℝ) 2 3 4) 2).z = 6 ∧
      (v4_scalar_mut (v4_new (1 : ℝ) 2 3 4) 2).w = 8) := by
  refine ⟨⟨rfl, rfl, rfl, rfl⟩, ?_, ?_, ?_, ?_⟩ <;>
    norm_num [v4_scalar_mut, v4_new]

/-- C8: `v4_mag` is the square root of `v4_dot v v`, i.e. of the sum of the
four squared fields; `magnitude((3,4,0,0)) = 5` and `magnitude((0,0,0,0)) = 0`. -/
theorem C8_v4_mag_euclidean (v : vec4 ℝ) :
    v4_mag Real.sqrt v = Real.sqrt (v4_dot v v) ∧
    v4_mag Real.sqrt v = Real.sqrt (v.x ^ 2 + v.y ^ 2 + v.z ^ 2 + v.w ^ 2) ∧
    v4_mag Real.sqrt (v4_new 3 4 0 0) = 5 ∧
    v4_mag Real.sqrt (v4_new 0 0 0 0) = 0 := by
  refine ⟨rfl, ?_, ?_, ?_⟩
  · unfold v4_mag
    rw [v4_dot_self_eq]
  · have h : v4_dot (v4_new (3 : ℝ) 4 0 0) (v4_new 3 4 0 0) = 5 ^ 2 := by
      norm_num [v4_dot, v4_new]
    unfold v4_mag
    rw [h]
    exact Real.sqrt_sq (by norm_num)
  · simp [v4_mag, v4_dot, v4_new]

/-- C9: over the reals `v4_mag` is non-negative, and it is 0 exactly when all
four fields are 0. -/
theorem C9_v4_mag_nonneg_zero_iff (v : vec4 ℝ) :
    0 ≤ v4_mag Real.sqrt v ∧
    (v4_mag Real.sqrt v = 0 ↔ v.x = 0 ∧ v.y = 0 ∧ v.z = 0 ∧ v.w = 0) :=
  ⟨Real.sqrt_nonneg _, v4_mag_eq_zero_iff v⟩

/-- C10: for a vector of non-zero magnitude `m`, `v4_norml` returns the four
finite quotients `v.x/m, v.y/m, v.z/m, v.w/m`, and that vector has
magnitude 1. -/
theorem C10_v4_norml_unit (v : vec4 ℝ) (h : v4_mag Real.sqrt v ≠ 0) :
    v4_norml Real.sqrt v
      = v4_new (fquot.fin (v.x / v4_mag Real.sqrt v)) (fquot.fin (v.y / v4_mag Real.sqrt v))
          (fquot.fin (v.z / v4_mag Real.sqrt v)) (fquot.fin (v.w / v4_mag Real.sqrt v)) ∧
    v4_mag Real.sqrt
      (v4_new (v.x / v4_mag Real.sqrt v) (v.y / v4_mag Real.sqrt v)
        (v.z / v4_mag Real.sqrt v) (v.w / v4_mag Real.sqrt v)) = 1 := by
  constructor
  · simp [v4_norml, fdiv, h]
  · have hsq : v4_mag Real.sqrt v * v4_mag Real.sqrt v = v4_dot v v :=
      Real.mul_self_sqrt (v4_dot_self_nonneg v)
    have hd : v4_dot
        (v4_new (v.x / v4_mag Real.sqrt v) (v.y / v4_mag Real.sqrt v)
          (v.z / v4_mag Real.sqrt v) (v.w / v4_mag Real.sqrt v))
        (v4_new (v.x / v4_mag Real.sqrt v) (v.y / v4_mag Real.sqrt v)
          (v.z / v4_mag Real.sqrt v) (v.w / v4_mag Real.sqrt v)) = 1 := by
      have e : v4_dot
          (v4_new (v.x / v4_mag Real.sqrt v) (v.y / v4_mag Real.sqrt v)
            (v.z / v4_mag Real.sqrt v) (v.w / v4_mag Real.sqrt v))
          (v4_new (v.x / v4_mag Real.sqrt v) (v.y / v4_mag Real.sqrt v)
            (v.z / v4_mag Real.sqrt v) (v.w / v4_mag Real.sqrt v))
          = v4_dot v v / (v4_mag Real.sqrt v * v4_mag Real.sqrt v) := by
        simp only [v4_dot, v4_new]
        field_simp
      rw [e, hsq]
      exact div_self (by rw [← hsq]; exact mul_ne_zero h h)
    show Real.sqrt _ = 1
    rw [hd, Real.sqrt_one]

theorem C10_v4_norml_unit_witness :
    v4_mag Real.sqrt (v4_new (3 : ℝ) 4 0 0) ≠ 0 ∧
    v4_norml Real.sqrt (v4_new (3 : ℝ) 4 0 0)
      = v4_new (fquot.fin (3 / v4_mag Real.sqrt (v4_new (3 : ℝ) 4 0 0)))
          (fquot.fin (4 / v4_mag Real.sqrt (v4_new (3 : ℝ) 4 0 0)))
          (fquot.fin (0 / v4_mag Real.sqrt (v4_new (3 : ℝ) 4 0 0)))
          (fquot.fin (0 / v4_mag Real.sqrt (v4_new (3 : ℝ) 4 0 0))) ∧
    v4_mag Real.sqrt
      (v4_new (3 / v4_mag Real.sqrt (v4_new (3 : ℝ) 4 0 0))
        (4 / v4_mag Real.sqrt (v4_new (3 : ℝ) 4 0 0))
        (0 / v4_mag Real.sqrt (v4_new (3 : ℝ) 4 0 0))
        (0 / v4_mag Real.sqrt (v4_new (3 : ℝ) 4 0 0))) = 1 :=
  have hm : v4_mag Real.sqrt (v4_new (3 : ℝ) 4 0 0) ≠ 0 := by
    intro h0
    have := ((v4_mag_eq_zero_iff _).mp h0).1
    norm_num [v4_new] at this
  ⟨hm, C10_v4_norml_unit (v4_new 3 4 0 0) hm⟩

/-- C11: `v4_cross` is anti-commutative: `v4_cross u v` and
`v4_scalar_mut (v4_cross v u) (-1)` have the same `x`, `y` and `z` fields, and
the `w` field of `v4_cross u v` is 0. -/
theorem C11_v4_cross_anticomm {α : Type} [CommRing α] (u v : vec4 α) :
    (v4_cross u v).x = (v4_scalar_mut (v4_cross v u) (-1)).x ∧
    (v4_cross u v).y = (v4_scalar_mut (v4_cross v u) (-1)).y ∧
    (v4_cross u v).z = (v4_scalar_mut (v4_cross v u) (-1)).z ∧
    (v4_cross u v).w = 0 := by
  refine ⟨?_, ?_, ?_, rfl⟩
  · simp only [v4_cross, v4_scalar_mut, v4_new]
    ring
  · simp only [v4_cross, v4_scalar_mut, v4_new]
    ring
  · simp only [v4_cross, v4_scalar_mut, v4_new]
    ring

/-- C12: `v4_add` is associative on all four fields (exact arithmetic, where
addition is associative and commutative). -/
theorem C12_v4_add_assoc {α : Type} [AddCommSemigroup α] (a b c : vec4 α) :
    v4_add (v4_add a b) c = v4_add a (v4_add b c) := by
  simp only [v4_add, v4_new, vec4.mk.injEq]
  exact ⟨add_assoc _ _ _, add_assoc _ _ _, (add_assoc _ _ _).symm, add_assoc _ _ _⟩

/-- C13: `v4_add` is commutative on all four fields. -/
theorem C13_v4_add_comm {α : Type} [AddCommMagma α] (a b : vec4 α) :
    v4_add a b = v4_add b a := by
  simp only [v4_add, v4_new, vec4.mk.injEq]
  exact ⟨add_comm _ _, add_comm _ _, add_comm _ _, add_comm _ _⟩

/-- C14: the zero vector `v4_new 0 0 0 0` is a right identity of `v4_add`. -/
theorem C14_v4_add_zero_right {α : Type} [AddZeroClass α] (a : vec4 α) :
    v4_add a (v4_new 0 0 0 0) = a := by
  cases a
  simp [v4_add, v4_new]

/-- C15: `v4_dot` is symmetric in its two arguments. -/
theorem C15_v4_dot_symm {α : Type} [Add α] [CommMagma α] (a b : vec4 α) :
    v4_dot a b = v4_dot b a := by
  simp only [v4_dot, mul_comm]

/-- C16: `v4_sub` as written adds and drops `w`: its `x` and `y` fields are the
sums `a.x + b.x` and `a.y + b.y`, its `w` field is 0 for any input `w`, its
`x`, `y`, `z` fields are those of `v4_add a b`, and `v4_equals` finds
`v4_sub a b` and `v4_add a b` equal. -/
theorem C16_v4_sub_is_add_without_w {α : Type} [Add α] [Zero α] [DecidableEq α]
    (a b : vec4 α) :
    (v4_sub a b).x = a.x + b.x ∧
    (v4_sub a b).y = a.y + b.y ∧
    (v4_sub a b).w = 0 ∧
    (∀ w1 w2 : α, (v4_sub (v4_new a.x a.y a.z w1) (v4_new b.x b.y b.z w2)).w = 0) ∧
    (v4_sub a b).x = (v4_add a b).x ∧
    (v4_sub a b).y = (v4_add a b).y ∧
    (v4_sub a b).z = (v4_add a b).z ∧
    v4_equals (v4_sub a b) (v4_add a b) = 1 := by
  refine ⟨rfl, rfl, rfl, fun _ _ => rfl, rfl, rfl, rfl, ?_⟩
  simp [v4_equals, v4_sub, v4_add, v4_new]

/-- C17: the cross product is orthogonal to both arguments under the
four-term `v4_dot`, for any `w` fields of the arguments. -/
theorem C17_v4_cross_orthogonal {α : Type} [CommRing α] (u v : vec4 α) :
    v4_dot u (v4_cross u v) = 0 ∧ v4_dot v (v4_cross u v) = 0 := by
  constructor
  · simp only [v4_dot, v4_cross, v4_new]
    ring
  · simp only [v4_dot, v4_cross, v4_new]
    ring

/-- C18: `v4_equals` accepts `a = (1,2,3,99)` and `b = (1,2,3,-5)` although
their magnitudes and their dot products with themselves differ, and over the
reals `v4_equals` is reflexive, symmetric and transitive. -/
theorem C18_v4_equals_ignores_w_equivalence :
    (v4_equals (v4_new (1 : ℝ) 2 3 99) (v4_new 1 2 3 (-5)) ≠ 0 ∧
      v4_mag Real.sqrt (v4_new (1 : ℝ) 2 3 99) ≠ v4_mag Real.sqrt (v4_new 1 2 3 (-5)) ∧
      v4_dot (v4_new (1 : ℝ) 2 3 99) (v4_new 1 2 3 99)
        ≠ v4_dot (v4_new (1 : ℝ) 2 3 (-5)) (v4_new 1 2 3 (-5))) ∧
    (∃ a b : vec4 ℝ, v4_equals a b ≠ 0 ∧ v4_mag Real.sqrt a ≠ v4_mag Real.sqrt b) ∧
    (∀ a : vec4 ℝ, v4_equals a a ≠ 0) ∧
    (∀ a b : vec4 ℝ, v4_equals a b ≠ 0 → v4_equals b a ≠ 0) ∧
    (∀ a b c : vec4 ℝ, v4_equals a b ≠ 0 → v4_equals b c ≠ 0 → v4_equals a c ≠ 0) := by
  have hiff : ∀ a b : vec4 ℝ,
      v4_equals a b ≠ 0 ↔ a.x = b.x ∧ a.y = b.y ∧ a.z = b.z := by
    intro a b
    unfold v4_equals
    split_ifs with h
    · simp [h]
    · simp [h]
  have hex : v4_equals (v4_new (1 : ℝ) 2 3 99) (v4_new 1 2 3 (-5)) ≠ 0 ∧
      v4_mag Real.sqrt (v4_new (1 : ℝ) 2 3 99) ≠ v4_mag Real.sqrt (v4_new 1 2 3 (-5)) ∧
      v4_dot (v4_new (1 : ℝ) 2 3 99) (v4_new 1 2 3 99)
        ≠ v4_dot (v4_new (1 : ℝ) 2 3 (-5)) (v4_new 1 2 3 (-5)) := by
    have hd : v4_dot (v4_new (1 : ℝ) 2 3 99) (v4_new 1 2 3 99)
        ≠ v4_dot (v4_new (1 : ℝ) 2 3 (-5)) (v4_new 1 2 3 (-5)) := by
      norm_num [v4_dot, v4_new]
    refine ⟨?_, ?_, hd⟩
    · rw [hiff]
      simp [v4_new]
    · intro hm
      unfold v4_mag at hm
      exact hd ((Real.sqrt_inj (v4_dot_self_nonneg _) (v4_dot_self_nonneg _)).mp hm)
  refine ⟨hex, ⟨_, _, hex.1, hex.2.1⟩, ?_, ?_, ?_⟩
  · intro a
    rw [hiff]
    exact ⟨rfl, rfl, rfl⟩
  · intro a b hab
    rw [hiff] at hab ⊢
    exact ⟨hab.1.symm, hab.2.1.symm, hab.2.2.symm⟩
  · intro a b c hab hbc
    rw [hiff] at hab hbc ⊢
    exact ⟨hab.1.trans hbc.1, hab.2.1.trans hbc.2.1, hab.2.2.trans hbc.2.2⟩

/-- C19: magnitude is absolutely homogeneous: over the reals
`v4_mag (v4_scalar_mut v t) = |t| * v4_mag v`. -/
theorem C19_v4_mag_scalar_mut (v : vec4 ℝ) (t : ℝ) :
    v4_mag Real.sqrt (v4_scalar_mut v t) = |t| * v4_mag Real.sqrt v := by
  have hd : v4_dot (v4_scalar_mut v t) (v4_scalar_mut v t) = t ^ 2 * v4_dot v v := by
    simp only [v4_dot, v4_scalar_mut, v4_new]
    ring
  unfold v4_mag
  rw [hd, Real.sqrt_mul (sq_nonneg t), Real.sqrt_sq_eq_abs]

/-- C20: for bounds `mi ≤ ma`, `clamp x mi ma` lies between `mi` and `ma`, and
it is `x` itself whenever `mi ≤ x ≤ ma`. -/
theorem C20_clamp_within_bounds {α : Type} [LinearOrder α] (x mi ma : α)
    (h : mi ≤ ma) :
    mi ≤ clamp x mi ma ∧ clamp x mi ma ≤ ma ∧
    (mi ≤ x → x ≤ ma → clamp x mi ma = x) := by
  unfold clamp min max
  by_cases h1 : x > mi
  · rw [if_pos h1]
    by_cases h2 : x < ma
    · rw [if_pos h2]
      exact ⟨le_of_lt h1, le_of_lt h2, fun _ _ => rfl⟩
    · rw [if_neg h2]
      exact ⟨h, le_refl _, fun _ hhi => le_antisymm (not_lt.mp h2) hhi⟩
  · rw [if_neg h1]
    by_cases h2 : mi < ma
    · rw [if_pos h2]
      exact ⟨le_refl _, le_of_lt h2, fun hlo _ => le_antisymm hlo (not_lt.mp h1)⟩
    · rw [if_neg h2]
      exact ⟨h, le_refl _,
        fun hlo hhi => le_antisymm (le_trans (not_lt.mp h2) hlo) hhi⟩

theorem C20_clamp_within_bounds_witness :
    (0 : ℤ) ≤ 5 ∧
    ((0 : ℤ) ≤ clamp 3 0 5 ∧ clamp (3 : ℤ) 0 5 ≤ 5 ∧ clamp (3 : ℤ) 0 5 = 3) ∧
    clamp (7 : ℤ) 0 5 = 5 ∧ clamp (-2 : ℤ) 0 5 = 0 :=
  ⟨by decide,
   ⟨(C20_clamp_within_bounds (3 : ℤ) 0 5 (by decide)).1,
    (C20_clamp_within_bounds (3 : ℤ) 0 5 (by decide)).2.1,
    (C20_clamp_within_bounds (3 : ℤ) 0 5 (by decide)).2.2 (by decide) (by decide)⟩,
   by decide, by decide⟩

end Raytracer
